import Mathlib

/-!
Verification of `macropy/core/exact_src.py` (the Source Extent Resolver).

The Python module is embedded shallowly:

* strings are `List Char`, with Python slice / `str.replace` / `str.strip` /
  `str.startswith` semantics reproduced by executable functions;
* `linear_index` is transcribed directly;
* `exact_src_imp` (the candidate-scan algorithm) is transcribed directly,
  with Python exceptions modelled by an error type `PErr` in `Except`;
* the external collaborators that are not part of the two source files of
  this repository (`ast.parse` from the standard library, and
  `macropy.core.unparse` / `macropy.core.walkers.Walker`, which live outside
  the resolver's file) are abstracted as an environment `Env` of functions,
  exactly at the call boundary the resolver uses them through.
-/

set_option maxRecDepth 10000

namespace MacropyES

/-- Python exception classes that can arise in the resolver, plus
`malformedQuery`, the error-taxonomy name the specification (§7) gives to
caller contract violations; the code itself never constructs the latter. -/
inductive PErr
  | syntaxError
  | attributeError
  | keyError
  | indexError
  | valueError
  | unboundLocal
  | exactSrc
  | malformedQuery
  deriving DecidableEq, Repr

/-- The kind tag of a queried fragment, covering exactly the `isinstance` /
`type` dispatches performed by `exact_src_imp`: the two `_transforms` keys
(`ast.GeneratorExp`, `ast.ListComp`), other expressions, `ast.If`, other
statements, and a Python `list` of statements. -/
inductive Kind
  | genExp
  | listComp
  | otherExpr
  | ifStmt
  | otherStmt
  | stmtList
  deriving DecidableEq, Repr

/-- A queried tree fragment, carrying exactly the data `exact_src_imp` reads
from it: its kind tag, the column offset the code consults (`tree.col_offset`
for statement nodes, `tree[0].col_offset` when the fragment is a list), and
the `(lineno, col_offset)` position samples that `indexer.collect(tree)`
returns for it (the `Walker`-based collector lives outside this file's
source, so its output is carried as data). -/
structure Fragment where
  kind : Kind
  col_offset : Nat
  samples : List (Nat × Nat)
  deriving DecidableEq, Repr

/-- The external capabilities `exact_src_imp` calls: `ast.parse` (standard
library) and `unparse` (from `macropy.core`, not among this repository's
source files under verification).  `parse` returning `.error .syntaxError`
models `ast.parse` raising `SyntaxError`; any other error models another
exception escaping the call.  `unparseT` is `unparse` applied to the queried
fragment itself, which may raise (e.g. `AttributeError`/`KeyError` on a
fragment that is not a standalone grammar production). -/
structure Env (M : Type) where
  parse : List Char → Except PErr M
  unparseM : M → Except PErr (List Char)
  unparseT : Fragment → Except PErr (List Char)

/-- Normalize a Python slice bound for a sequence of length `n`
(negative indices count from the end; results are clamped into `[0, n]`). -/
def pyNormIdx (n : Nat) (i : Int) : Nat :=
  if i < 0 then ((n : Int) + i).toNat else min i.toNat n

/-- Python slice `s[a:b]` (step 1). -/
def pySlice (s : List Char) (a b : Int) : List Char :=
  (s.take (pyNormIdx s.length b)).drop (pyNormIdx s.length a)

/-- `" " * n` — a run of `n` spaces. -/
def spaceRun (n : Nat) : List Char :=
  List.replicate n ' '

/-- Fuelled worker for `pyReplace`; the fuel is the length of the subject
string, which bounds the number of recursion steps since every step consumes
at least one character. -/
def pyReplaceFuel : Nat → List Char → List Char → List Char → List Char
  | 0, s, _, _ => s
  | Nat.succ fuel, s, pat, rep =>
    match s with
    | [] => []
    | c :: cs =>
      if pat ≠ [] ∧ pat.isPrefixOf s then
        rep ++ pyReplaceFuel fuel (s.drop pat.length) pat rep
      else
        c :: pyReplaceFuel fuel cs pat rep

/-- Python `s.replace(pat, rep)`: replace non-overlapping occurrences of
`pat` left to right.  (The resolver only ever calls this with a non-empty
pattern, a newline followed by spaces.) -/
def pyReplace (s pat rep : List Char) : List Char :=
  pyReplaceFuel s.length s pat rep

/-- The characters Python `str.strip()` removes. -/
def isPySpace (c : Char) : Bool :=
  c == ' ' || c == '\t' || c == '\n' || c == '\r' || c == '\x0b' || c == '\x0c'

/-- Python `s.strip()`. -/
def pyStrip (s : List Char) : List Char :=
  ((s.dropWhile isPySpace).reverse.dropWhile isPySpace).reverse

/-- Lexicographic comparison of `(lineno, col_offset)` pairs, as Python's
tuple `<=` used by `sorted`. -/
def lexLe (p q : Nat × Nat) : Bool :=
  Nat.blt p.1 q.1 || (p.1 == q.1 && Nat.ble p.2 q.2)

/-- Insert into a `lexLe`-sorted list. -/
def insertPair (p : Nat × Nat) : List (Nat × Nat) → List (Nat × Nat)
  | [] => [p]
  | q :: qs => if lexLe p q then p :: q :: qs else q :: insertPair p qs

/-- Python `sorted` on `(lineno, col_offset)` pairs (insertion sort; the
sorted permutation of a list of pairs is unique because equal keys are
identical pairs). -/
def sortPairs : List (Nat × Nat) → List (Nat × Nat)
  | [] => []
  | p :: ps => insertPair p (sortPairs ps)

/-- Transcription of `linear_index(line_lengths, lineno, col_offset)`:
`sum(line_lengths[:lineno-1]) + lineno-2 + col_offset + 1`.
Line numbers are 1-based, exactly as in the Python positions. -/
def linear_index (line_lengths : List Nat) (lineno col_offset : Nat) : Int :=
  let prev_length : Int :=
    ((line_lengths.take (lineno - 1)).sum : Int) + (lineno : Int) - 2
  prev_length + (col_offset : Int) + 1

/-- Python `list.index` as an option: index of the first occurrence. -/
def pyIndex (l : List Int) (v : Int) : Option Nat :=
  match l with
  | [] => none
  | x :: xs => if x = v then some 0 else (pyIndex xs v).map (· + 1)

/-- The `while first_successor_index <= last_child_index and
idxs_idx < len(indexes())-1` loop: advance the cursor while the current
entry is still `≤ last`.  The fuel argument is `len - 1 - i`, so `fuel = 0`
exactly when `i` has reached the final position. -/
def advance (idxs : List Int) (last : Int) : Nat → Nat → Nat
  | i, 0 => i
  | i, Nat.succ fuel =>
    if idxs.getD i 0 ≤ last then advance idxs last (i + 1) fuel else i

/-- The final cursor position after the clamped initialisation
`min(pos+1, len-1)` and the advancing loop. -/
def succPos (idxs : List Int) (last : Int) (pos : Nat) : Nat :=
  let i0 := min (pos + 1) (idxs.length - 1)
  advance idxs last i0 (idxs.length - 1 - i0)

/-- `start_index`: linear index of the least position sample
(`sorted(...)[0]`). Defaults to `0` on an empty sample list, a value only
read under a non-emptiness hypothesis. -/
def startIndex (t : Fragment) (ll : List Nat) : Int :=
  match sortPairs t.samples with
  | [] => 0
  | p :: _ => linear_index ll p.1 p.2

/-- `last_child_index`: linear index of the greatest position sample
(`sorted(...)[-1]`). -/
def lastIndex (t : Fragment) (ll : List Nat) : Int :=
  match sortPairs t.samples with
  | [] => 0
  | p :: ps => linear_index ll (ps.getLastD p).1 (ps.getLastD p).2

/-- `first_successor_index` after the advancing loop. -/
def succIndex (t : Fragment) (ll : List Nat) (indexes : List Int) : Int :=
  match pyIndex indexes (lastIndex t ll) with
  | none => 0
  | some pos => indexes.getD (succPos indexes (lastIndex t ll) pos) 0

/-- `_transforms.get(type(tree), "%s") % prelim`: the comprehension
delimiter wrap keyed on the fragment's type. -/
def applyTransform (k : Kind) (s : List Char) : List Char :=
  match k with
  | Kind.genExp => '(' :: (s ++ [')'])
  | Kind.listComp => '[' :: (s ++ [']'])
  | _ => s

/-- `isinstance(tree, ast.expr)`. -/
def isExprKind (k : Kind) : Bool :=
  match k with
  | Kind.genExp => true
  | Kind.listComp => true
  | Kind.otherExpr => true
  | _ => false

/-- `isinstance(tree, ast.stmt)`. -/
def isStmtKind (k : Kind) : Bool :=
  match k with
  | Kind.ifStmt => true
  | Kind.otherStmt => true
  | _ => false

/-- The parenthesis wrap applied (to expression-kind fragments only) just
before `ast.parse`, inside the `try` block:
`x = "(" + prelim + ")" if isinstance(tree, ast.expr) else prelim`. -/
def exprWrap (k : Kind) (s : List Char) : List Char :=
  if isExprKind k then '(' :: (s ++ [')']) else s

/-- The candidate post-processing pipeline applied to the raw slice before
the parse attempt: the `_transforms` wrap, then statement dedenting (with
the `elif` special case `tree.col_offset - 5`), then list dedenting via the
first element's column offset. -/
def processCandidate (t : Fragment) (cand : List Char) : List Char :=
  let p1 := applyTransform t.kind cand
  let p2 :=
    if isStmtKind t.kind then
      if t.kind = Kind.ifStmt ∧ ¬ (List.isPrefixOf "if ".toList p1) then
        pyReplace p1 ('\n' :: spaceRun ((t.col_offset : Int) - 5).toNat) ['\n']
      else
        pyReplace p1 ('\n' :: spaceRun t.col_offset) ['\n']
    else p1
  if t.kind = Kind.stmtList then
    pyReplace p2 ('\n' :: spaceRun t.col_offset) ['\n']
  else p2

/-- The fully processed candidate for end offset `e`:
`prelim` as it stands when the `try` block is entered. -/
def candidateAt (t : Fragment) (src : List Char) (startI e : Int) : List Char :=
  processCandidate t (pySlice src startI e)

/-- The body of the `try` block: wrap expression fragments in parentheses,
parse, unparse both sides, compare stripped texts.  A `.error .syntaxError`
result models `SyntaxError` (the only caught exception); any other `.error`
models an exception that the `except SyntaxError` clause does not catch. -/
def attempt {M : Type} (env : Env M) (t : Fragment) (prelim : List Char) :
    Except PErr Bool := do
  let parsed ← env.parse (exprWrap t.kind prelim)
  let u1 ← env.unparseM parsed
  let u2 ← env.unparseT t
  pure (decide (pyStrip u1 = pyStrip u2))

/-- `"elif "`, the literal prefixed by the fallback return. -/
def elifMarker : List Char :=
  "elif ".toList

/-- The `for end_index in range(last, succ+1)` loop.  The `Nat` argument is
the number of remaining iterations, the `Int` argument the current end
offset, and the `Option` argument the value of the Python variable `prelim`
from the previous iteration (`none` when the variable is still unbound).
After the loop: an `ast.If` fragment returns `"elif " + prelim`
(`.unboundLocal` if no iteration ever assigned `prelim`), any other
fragment raises `ExactSrcException`. -/
def scan {M : Type} (env : Env M) (t : Fragment) (src : List Char)
    (startI : Int) : Nat → Int → Option (List Char) → Except PErr (List Char)
  | 0, _, lastPrelim =>
    if t.kind = Kind.ifStmt then
      match lastPrelim with
      | some p => Except.ok (elifMarker ++ p)
      | none => Except.error PErr.unboundLocal
    else Except.error PErr.exactSrc
  | Nat.succ n, e, _ =>
    let prelim := candidateAt t src startI e
    match attempt env t prelim with
    | Except.error PErr.syntaxError => scan env t src startI n (e + 1) (some prelim)
    | Except.error err => Except.error err
    | Except.ok b =>
      if b then Except.ok prelim else scan env t src startI n (e + 1) (some prelim)

/-- Transcription of `exact_src_imp(tree, src, indexes, line_lengths)`.
`sorted(indexer.collect(tree))[0]` on an empty sample list raises
`IndexError`; `indexes().index(...)` on a missing value raises `ValueError`;
otherwise the candidate scan runs from `last_child_index` to
`first_successor_index` inclusive. -/
def exact_src_imp {M : Type} (env : Env M) (t : Fragment) (src : List Char)
    (indexes : List Int) (line_lengths : List Nat) : Except PErr (List Char) :=
  match sortPairs t.samples with
  | [] => Except.error PErr.indexError
  | _ :: _ =>
    match pyIndex indexes (lastIndex t line_lengths) with
    | none => Except.error PErr.valueError
    | some _ =>
      scan env t src (startIndex t line_lengths)
        ((succIndex t line_lengths indexes + 1 - lastIndex t line_lengths).toNat)
        (lastIndex t line_lengths) none

/-- Insert into a strictly sorted list of offsets, discarding duplicates. -/
def insertDistinct (x : Int) : List Int → List Int
  | [] => [x]
  | y :: ys =>
    if x < y then x :: y :: ys
    else if x = y then y :: ys
    else y :: insertDistinct x ys

/-- Sort a list of offsets and discard duplicates. -/
def sortedDistinct : List Int → List Int
  | [] => []
  | x :: xs => insertDistinct x (sortedDistinct xs)

/-- Modelled from the spec: the Offset Index construction
`build_offset_table(tree, source) -> sorted distinct offsets ++ [len(source)]`
(§4.3).  The traversal order of `walkers.Walker` and the behaviour of
`util.distinct` are code of this repository outside the source files under
verification, so the table is modelled by the spec's own description:
the sorted, duplicate-free sequence of sample offsets with the source
length appended as the terminal sentinel. -/
def build_offset_table (offsets : List Int) (srcLen : Nat) : List Int :=
  sortedDistinct offsets ++ [(srcLen : Int)]

/-- The Offset Index for a sample set: every `(lineno, col_offset)` sample
mapped through `linear_index`, then `build_offset_table`. -/
def offset_table (ll : List Nat) (samples : List (Nat × Nat)) (srcLen : Nat) :
    List Int :=
  build_offset_table (samples.map fun p => linear_index ll p.1 p.2) srcLen

/-- The indentation stripping rule exactly as the specification words it for
a misdetected `elif` clause: remove, after each newline, a number of spaces
equal to the PARENT node's column offset minus the fixed constant margin.
Stated for comparison with `processCandidate`, which is transcribed from the
source. -/
def claimElifStrip (parentCol : Nat) (cand : List Char) : List Char :=
  pyReplace cand ('\n' :: spaceRun ((parentCol : Int) - 5).toNat) ['\n']

/-- An end offset whose candidate fails benignly: the parse attempt raises
`SyntaxError` (caught, scan continues) or parses to a tree whose unparse
does not match (scan continues). -/
def benignAt {M : Type} (env : Env M) (t : Fragment) (src : List Char)
    (startI e : Int) : Prop :=
  attempt env t (candidateAt t src startI e) = Except.error PErr.syntaxError ∨
  attempt env t (candidateAt t src startI e) = Except.ok false

deriving instance DecidableEq for Except

/- ### Concrete scenarios

Small closed instantiations of the abstract environment, used to witness
the general theorems and to exhibit counterexamples.  The toy parse /
unparse functions agree with the real parser and unparser on every string
the scenario exercises (partial slices of the comprehension body are not
standalone productions; `"elif ..."` never parses standalone). -/

/-- A generator/list-comprehension body without its delimiters, as it
appears in source between the positions the parser records. -/
def srcA : List Char :=
  "x for x in y".toList

/-- A `ListComp` fragment starting at line 1, column 0. -/
def treeA : Fragment :=
  ⟨Kind.listComp, 0, [(1, 0)]⟩

/-- Environment for scenario A: only the fully wrapped candidate parses,
and both unparses render the canonical comprehension text. -/
def envA : Env Nat :=
  ⟨fun s => if s = "([x for x in y])".toList then Except.ok 1
            else Except.error PErr.syntaxError,
   fun _ => Except.ok "[x for x in y]".toList,
   fun _ => Except.ok "[x for x in y]".toList⟩

def idxsA : List Int :=
  [0, 12]

def llA : List Nat :=
  [12]

/-- Scenario B: a single-line fragment recorded as a (misdetected-`elif`)
`ast.If` node at column 5 whose text never reparses. -/
def srcB : List Char :=
  "b: 2".toList

def treeB : Fragment :=
  ⟨Kind.ifStmt, 5, [(1, 0)]⟩

/-- Environment for scenario B: nothing parses (as for real `ast.parse` on
`"b: 2"`, `"elif b: 2"` and every prefix). -/
def envB : Env Nat :=
  ⟨fun _ => Except.error PErr.syntaxError,
   fun _ => Except.error PErr.attributeError,
   fun _ => Except.error PErr.attributeError⟩

def idxsB : List Int :=
  [0, 4]

def llB : List Nat :=
  [4]

/-- Scenario C: the candidate parses, but unparsing the original fragment
raises `AttributeError` (a fragment the unparser cannot render standalone). -/
def srcC : List Char :=
  "y".toList

def treeC : Fragment :=
  ⟨Kind.otherExpr, 0, [(1, 0)]⟩

def envC : Env Nat :=
  ⟨fun _ => Except.ok 0,
   fun _ => Except.ok [],
   fun _ => Except.error PErr.attributeError⟩

def idxsC : List Int :=
  [0, 1]

def llC : List Nat :=
  [1]

/-- Scenario D: a fragment with an empty position-sample set. -/
def treeD : Fragment :=
  ⟨Kind.otherExpr, 0, []⟩

/-- Scenario E: two misdetected-`elif` fragments that differ only in the
node's own recorded column offset (both sitting under a parent `if` at
column `parentColE`), and a two-line candidate text. -/
def tE1 : Fragment :=
  ⟨Kind.ifStmt, 11, [(1, 0)]⟩

def tE2 : Fragment :=
  ⟨Kind.ifStmt, 7, [(1, 0)]⟩

def parentColE : Nat :=
  4

def candE : List Char :=
  "x:\n      y".toList

/- ### Basic lemmas about the embedded operations -/

theorem insertPair_ne_nil (p : Nat × Nat) (l : List (Nat × Nat)) :
    insertPair p l ≠ [] := by
  cases l with
  | nil => simp [insertPair]
  | cons q qs =>
    unfold insertPair
    split <;> simp

theorem sortPairs_eq_nil_iff (l : List (Nat × Nat)) :
    sortPairs l = [] ↔ l = [] := by
  cases l with
  | nil => simp [sortPairs]
  | cons p ps =>
    simp only [sortPairs]
    exact ⟨fun h => absurd h (insertPair_ne_nil _ _), fun h => nomatch h⟩

theorem pySlice_isInfix (s : List Char) (a b : Int) :
    List.IsInfix (pySlice s a b) s := by
  unfold pySlice
  exact ((List.drop_suffix _ _).isInfix).trans ((List.take_prefix _ _).isInfix)

theorem benignAt_ne_okTrue {M : Type} {env : Env M} {t : Fragment}
    {src : List Char} {startI e : Int} (h : benignAt env t src startI e) :
    attempt env t (candidateAt t src startI e) ≠ Except.ok true := by
  rcases h with h | h <;> simp [h]

/-- Unfolding `attempt` when it returns `.ok true`: the wrapped candidate
parses and both unparses succeed with equal stripped text. -/
theorem attempt_ok_true {M : Type} {env : Env M} {t : Fragment}
    {prelim : List Char} (h : attempt env t prelim = Except.ok true) :
    ∃ m u1 u2, env.parse (exprWrap t.kind prelim) = Except.ok m ∧
      env.unparseM m = Except.ok u1 ∧ env.unparseT t = Except.ok u2 ∧
      pyStrip u1 = pyStrip u2 := by
  unfold attempt at h
  rcases hp : env.parse (exprWrap t.kind prelim) with e | m
  · simp [hp, bind, Except.bind, Functor.map, Except.map] at h
  simp only [hp, bind, Except.bind] at h
  rcases h1 : env.unparseM m with e | u1
  · simp [h1, bind, Except.bind, Functor.map, Except.map] at h
  simp only [h1, bind, Except.bind] at h
  rcases h2 : env.unparseT t with e | u2
  · simp [h2, bind, Except.bind, Functor.map, Except.map, pure, Except.pure] at h
  simp only [h2, bind, Except.bind, Functor.map, Except.map, pure, Except.pure,
    Except.ok.injEq] at h
  exact ⟨m, u1, u2, rfl, h1, rfl, of_decide_eq_true h⟩

/- ### The scan loop: step lemmas -/

theorem scan_zero {M : Type} (env : Env M) (t : Fragment) (src : List Char)
    (startI e : Int) (acc : Option (List Char)) :
    scan env t src startI 0 e acc =
      if t.kind = Kind.ifStmt then
        match acc with
        | some p => Except.ok (elifMarker ++ p)
        | none => Except.error PErr.unboundLocal
      else Except.error PErr.exactSrc := rfl

theorem scan_succ_synErr {M : Type} {env : Env M} {t : Fragment}
    {src : List Char} {startI : Int} (n : Nat) (e : Int)
    (acc : Option (List Char))
    (h : attempt env t (candidateAt t src startI e) = Except.error PErr.syntaxError) :
    scan env t src startI (n + 1) e acc =
      scan env t src startI n (e + 1) (some (candidateAt t src startI e)) := by
  conv_lhs => rw [scan]
  rw [h]

theorem scan_succ_okFalse {M : Type} {env : Env M} {t : Fragment}
    {src : List Char} {startI : Int} (n : Nat) (e : Int)
    (acc : Option (List Char))
    (h : attempt env t (candidateAt t src startI e) = Except.ok false) :
    scan env t src startI (n + 1) e acc =
      scan env t src startI n (e + 1) (some (candidateAt t src startI e)) := by
  conv_lhs => rw [scan]
  rw [h]
  rfl

theorem scan_succ_okTrue {M : Type} {env : Env M} {t : Fragment}
    {src : List Char} {startI : Int} (n : Nat) (e : Int)
    (acc : Option (List Char))
    (h : attempt env t (candidateAt t src startI e) = Except.ok true) :
    scan env t src startI (n + 1) e acc =
      Except.ok (candidateAt t src startI e) := by
  conv_lhs => rw [scan]
  rw [h]
  rfl

theorem scan_succ_err {M : Type} {env : Env M} {t : Fragment}
    {src : List Char} {startI : Int} (n : Nat) (e : Int)
    (acc : Option (List Char)) (err : PErr)
    (h : attempt env t (candidateAt t src startI e) = Except.error err)
    (hne : err ≠ PErr.syntaxError) :
    scan env t src startI (n + 1) e acc = Except.error err := by
  conv_lhs => rw [scan]
  rw [h]
  cases err <;> first | exact absurd rfl hne | rfl

theorem scan_step_benign {M : Type} {env : Env M} {t : Fragment}
    {src : List Char} {startI : Int} (n : Nat) (e : Int)
    (acc : Option (List Char)) (h : benignAt env t src startI e) :
    scan env t src startI (n + 1) e acc =
      scan env t src startI n (e + 1) (some (candidateAt t src startI e)) := by
  rcases h with h | h
  · exact scan_succ_synErr n e acc h
  · exact scan_succ_okFalse n e acc h

/-- Every `.ok` outcome of the scan loop is either a round-trip-validated
candidate at the first matching end offset (all earlier offsets having
failed benignly), or — for an `ast.If` fragment — the `"elif "`-prefixed
fallback after every offset failed benignly. -/
theorem scan_ok_cases {M : Type} (env : Env M) (t : Fragment)
    (src : List Char) (startI : Int) :
    ∀ (n : Nat) (e : Int) (acc : Option (List Char)) (r : List Char),
    scan env t src startI n e acc = Except.ok r →
    (∃ k : Nat, k < n ∧
        attempt env t (candidateAt t src startI (e + k)) = Except.ok true ∧
        r = candidateAt t src startI (e + k) ∧
        ∀ j : Nat, j < k → benignAt env t src startI (e + j))
    ∨ (t.kind = Kind.ifStmt ∧
        (∀ k : Nat, k < n → benignAt env t src startI (e + k)) ∧
        ((0 < n ∧ r = elifMarker ++ candidateAt t src startI (e + (n - 1))) ∨
         (n = 0 ∧ ∃ p, acc = some p ∧ r = elifMarker ++ p))) := by
  intro n
  induction n with
  | zero =>
    intro e acc r hr
    rw [scan_zero] at hr
    by_cases hk : t.kind = Kind.ifStmt
    · rw [if_pos hk] at hr
      cases acc with
      | none => exact absurd hr (by simp)
      | some p =>
        refine Or.inr ⟨hk, by omega, Or.inr ⟨rfl, p, rfl, ?_⟩⟩
        exact (Except.ok.inj hr).symm
    · rw [if_neg hk] at hr
      exact absurd hr (by simp)
  | succ n ih =>
    intro e acc r hr
    rcases hatt : attempt env t (candidateAt t src startI e) with err | b
    · by_cases herr : err = PErr.syntaxError
      · subst herr
        rw [scan_succ_synErr n e acc hatt] at hr
        rcases ih (e + 1) (some (candidateAt t src startI e)) r hr with
          ⟨k, hk, ha, hrr, hpre⟩ | ⟨hkind, hall, hend⟩
        · refine Or.inl ⟨k + 1, by omega, ?_, ?_, ?_⟩
          · have : e + (↑(k + 1) : Int) = e + 1 + k := by push_cast; ring
            rw [this]; exact ha
          · have : e + (↑(k + 1) : Int) = e + 1 + k := by push_cast; ring
            rw [this]; exact hrr
          · intro j hj
            cases j with
            | zero => simpa using Or.inl hatt
            | succ j' =>
              have : e + (↑(j' + 1) : Int) = e + 1 + j' := by push_cast; ring
              rw [benignAt, this]
              exact hpre j' (by omega)
        · refine Or.inr ⟨hkind, ?_, ?_⟩
          · intro k hk
            cases k with
            | zero => simpa using Or.inl hatt
            | succ k' =>
              have : e + (↑(k' + 1) : Int) = e + 1 + k' := by push_cast; ring
              rw [benignAt, this]
              exact hall k' (by omega)
          · left
            refine ⟨by omega, ?_⟩
            rcases hend with ⟨hn, hrr⟩ | ⟨hn, p, hp, hrr⟩
            · have harith : e + ((↑(n + 1) : Int) - 1) = e + 1 + ((↑n : Int) - 1) := by
                push_cast; ring
              rw [harith]; exact hrr
            · subst hn
              have hp' : p = candidateAt t src startI e := (Option.some.inj hp).symm
              rw [hrr, hp']
              congr 2
              omega
      · rw [scan_succ_err n e acc err hatt herr] at hr
        exact absurd hr (by simp)
    · cases b with
      | false =>
        rw [scan_succ_okFalse n e acc hatt] at hr
        rcases ih (e + 1) (some (candidateAt t src startI e)) r hr with
          ⟨k, hk, ha, hrr, hpre⟩ | ⟨hkind, hall, hend⟩
        · refine Or.inl ⟨k + 1, by omega, ?_, ?_, ?_⟩
          · have : e + (↑(k + 1) : Int) = e + 1 + k := by push_cast; ring
            rw [this]; exact ha
          · have : e + (↑(k + 1) : Int) = e + 1 + k := by push_cast; ring
            rw [this]; exact hrr
          · intro j hj
            cases j with
            | zero => simpa using Or.inr hatt
            | succ j' =>
              have : e + (↑(j' + 1) : Int) = e + 1 + j' := by push_cast; ring
              rw [benignAt, this]
              exact hpre j' (by omega)
        · refine Or.inr ⟨hkind, ?_, ?_⟩
          · intro k hk
            cases k with
            | zero => simpa using Or.inr hatt
            | succ k' =>
              have : e + (↑(k' + 1) : Int) = e + 1 + k' := by push_cast; ring
              rw [benignAt, this]
              exact hall k' (by omega)
          · left
            refine ⟨by omega, ?_⟩
            rcases hend with ⟨hn, hrr⟩ | ⟨hn, p, hp, hrr⟩
            · have harith : e + ((↑(n + 1) : Int) - 1) = e + 1 + ((↑n : Int) - 1) := by
                push_cast; ring
              rw [harith]; exact hrr
            · subst hn
              have hp' : p = candidateAt t src startI e := (Option.some.inj hp).symm
              rw [hrr, hp']
              congr 2
              omega
      | true =>
        rw [scan_succ_okTrue n e acc hatt] at hr
        refine Or.inl ⟨0, by omega, ?_, ?_, by omega⟩
        · simpa using hatt
        · simpa using (Except.ok.inj hr).symm

/-- If every offset in the window fails benignly and the fragment is not an
`ast.If`, the scan raises `ExactSrcException`. -/
theorem scan_benign_nonif {M : Type} {env : Env M} {t : Fragment}
    {src : List Char} {startI : Int} (hk : t.kind ≠ Kind.ifStmt) :
    ∀ (n : Nat) (e : Int) (acc : Option (List Char)),
    (∀ k : Nat, k < n → benignAt env t src startI (e + k)) →
    scan env t src startI n e acc = Except.error PErr.exactSrc := by
  intro n
  induction n with
  | zero =>
    intro e acc _
    rw [scan_zero, if_neg hk]
  | succ n ih =>
    intro e acc hall
    have h0 : benignAt env t src startI e := by simpa using hall 0 (by omega)
    rw [scan_step_benign n e acc h0]
    refine ih (e + 1) _ ?_
    intro k hkn
    have : e + 1 + (k : Int) = e + (((k + 1 : Nat) : Int)) := by push_cast; ring
    rw [this]
    exact hall (k + 1) (by omega)

/-- If every offset in the window fails benignly and the fragment is an
`ast.If`, the scan returns the `"elif "`-prefixed final candidate. -/
theorem scan_benign_if {M : Type} {env : Env M} {t : Fragment}
    {src : List Char} {startI : Int} (hk : t.kind = Kind.ifStmt) :
    ∀ (n : Nat) (e : Int) (acc : Option (List Char)), 0 < n →
    (∀ k : Nat, k < n → benignAt env t src startI (e + k)) →
    scan env t src startI n e acc =
      Except.ok (elifMarker ++ candidateAt t src startI (e + (n : Int) - 1)) := by
  intro n
  induction n with
  | zero => intro e acc h; omega
  | succ n ih =>
    intro e acc _ hall
    have h0 : benignAt env t src startI e := by simpa using hall 0 (by omega)
    rw [scan_step_benign n e acc h0]
    cases n with
    | zero =>
      rw [scan_zero, if_pos hk]
      norm_num
    | succ n' =>
      rw [ih (e + 1) _ (by omega) ?_]
      · congr 3
        push_cast
        omega
      · intro k hkn
        have : e + 1 + (k : Int) = e + (((k + 1 : Nat) : Int)) := by push_cast; ring
        rw [this]
        exact hall (k + 1) (by omega)

/-- If the offsets before `e + m` fail benignly and the attempt at `e + m`
raises anything other than `SyntaxError`, that exception escapes the scan. -/
theorem scan_error_surface {M : Type} {env : Env M} {t : Fragment}
    {src : List Char} {startI : Int} {err : PErr}
    (hsyn : err ≠ PErr.syntaxError) :
    ∀ (m n : Nat) (e : Int) (acc : Option (List Char)), m < n →
    (∀ k : Nat, k < m → benignAt env t src startI (e + k)) →
    attempt env t (candidateAt t src startI (e + m)) = Except.error err →
    scan env t src startI n e acc = Except.error err := by
  intro m
  induction m with
  | zero =>
    intro n e acc hmn _ herr
    cases n with
    | zero => omega
    | succ n' =>
      have herr0 : attempt env t (candidateAt t src startI e) = Except.error err := by
        simpa using herr
      exact scan_succ_err n' e acc err herr0 hsyn
  | succ m ih =>
    intro n e acc hmn hpre herr
    cases n with
    | zero => omega
    | succ n' =>
      have h0 : benignAt env t src startI e := by simpa using hpre 0 (by omega)
      rw [scan_step_benign n' e acc h0]
      refine ih n' (e + 1) _ (by omega) ?_ ?_
      · intro k hkm
        have : e + 1 + (k : Int) = e + (((k + 1 : Nat) : Int)) := by push_cast; ring
        rw [this]
        exact hpre (k + 1) (by omega)
      · have : e + 1 + (m : Int) = e + (((m + 1 : Nat) : Int)) := by push_cast; ring
        rw [this]
        exact herr

/- ### Unfolding `exact_src_imp` -/

/-- An empty position-sample set reaches `sorted(...)[0]` on an empty list:
`IndexError`. -/
theorem exact_src_imp_empty {M : Type} (env : Env M) (t : Fragment)
    (src : List Char) (indexes : List Int) (ll : List Nat)
    (h : t.samples = []) :
    exact_src_imp env t src indexes ll = Except.error PErr.indexError := by
  unfold exact_src_imp
  rw [show sortPairs t.samples = [] from (sortPairs_eq_nil_iff _).mpr h]

/-- With a non-empty sample set and `last_child_index` present in the offset
index, `exact_src_imp` is the scan over
`range(last_child_index, first_successor_index + 1)`. -/
theorem exact_src_imp_eq_scan {M : Type} (env : Env M) (t : Fragment)
    (src : List Char) (indexes : List Int) (ll : List Nat) (pos : Nat)
    (hne : t.samples ≠ [])
    (hidx : pyIndex indexes (lastIndex t ll) = some pos) :
    exact_src_imp env t src indexes ll =
      scan env t src (startIndex t ll)
        ((succIndex t ll indexes + 1 - lastIndex t ll).toNat)
        (lastIndex t ll) none := by
  unfold exact_src_imp
  rcases hs : sortPairs t.samples with _ | ⟨p, ps⟩
  · exact absurd ((sortPairs_eq_nil_iff _).mp hs) hne
  rw [hidx]

/-- An `.ok` result can only come out of the scan: the sample set is
non-empty and `last_child_index` was found in the offset index. -/
theorem exact_src_imp_ok_shape {M : Type} (env : Env M) (t : Fragment)
    (src : List Char) (indexes : List Int) (ll : List Nat) (r : List Char)
    (hok : exact_src_imp env t src indexes ll = Except.ok r) :
    t.samples ≠ [] ∧ ∃ pos, pyIndex indexes (lastIndex t ll) = some pos := by
  unfold exact_src_imp at hok
  rcases hs : sortPairs t.samples with _ | ⟨p, ps⟩ <;> rw [hs] at hok
  · exact absurd hok (by simp)
  rcases hi : pyIndex indexes (lastIndex t ll) with _ | pos <;> rw [hi] at hok
  · exact absurd hok (by simp)
  refine ⟨fun h => ?_, pos, rfl⟩
  rw [(sortPairs_eq_nil_iff _).mpr h] at hs
  exact nomatch hs

/- ### The offset table -/

theorem insertDistinct_mem (x : Int) (l : List Int) (a : Int) :
    a ∈ insertDistinct x l ↔ a = x ∨ a ∈ l := by
  induction l with
  | nil => simp [insertDistinct]
  | cons y ys ih =>
    unfold insertDistinct
    by_cases h1 : x < y
    · simp [h1]
    by_cases h2 : x = y
    · subst h2
      simp [h1]
    · simp [h1, h2, ih]
      tauto

theorem insertDistinct_sorted (x : Int) (l : List Int)
    (h : List.Sorted (· < ·) l) :
    List.Sorted (· < ·) (insertDistinct x l) := by
  induction l with
  | nil => simp [insertDistinct]
  | cons y ys ih =>
    rw [List.sorted_cons] at h
    unfold insertDistinct
    by_cases h1 : x < y
    · rw [if_pos h1, List.sorted_cons]
      refine ⟨?_, List.sorted_cons.mpr h⟩
      intro b hb
      rcases List.mem_cons.mp hb with hb | hb
      · omega
      · have := h.1 b hb
        omega
    by_cases h2 : x = y
    · rw [if_neg h1, if_pos h2]
      exact List.sorted_cons.mpr h
    · rw [if_neg h1, if_neg h2, List.sorted_cons]
      refine ⟨?_, ih h.2⟩
      intro b hb
      rcases (insertDistinct_mem x ys b).mp hb with hb | hb
      · omega
      · exact h.1 b hb

theorem sortedDistinct_sorted (l : List Int) :
    List.Sorted (· < ·) (sortedDistinct l) := by
  induction l with
  | nil => simp [sortedDistinct]
  | cons x xs ih => exact insertDistinct_sorted x (sortedDistinct xs) ih

theorem sortedDistinct_mem (l : List Int) (a : Int) :
    a ∈ sortedDistinct l ↔ a ∈ l := by
  induction l with
  | nil => simp [sortedDistinct]
  | cons x xs ih =>
    simp only [sortedDistinct, insertDistinct_mem, ih, List.mem_cons]

theorem getLast?_append_singleton (l : List Int) (a : Int) :
    (l ++ [a]).getLast? = some a := by
  induction l with
  | nil => rfl
  | cons x xs ih =>
    rw [List.cons_append, List.getLast?_cons, ih]
    rfl

/-- For a comprehension-kind fragment the candidate post-processing is
exactly the delimiter wrap: no statement or list dedenting applies. -/
theorem processCandidate_comprehension (t : Fragment) (cand : List Char)
    (hk : t.kind = Kind.genExp ∨ t.kind = Kind.listComp) :
    processCandidate t cand = applyTransform t.kind cand := by
  rcases hk with hk | hk <;>
    simp [processCandidate, hk, isStmtKind]

/- ### Claims -/

/-- C9: `linear_index(line_lengths, line, column)` equals the sum of the
lengths of all lines strictly before `line` (1-based, so the first
`line - 1` entries), plus `(line - 2)`, plus `column + 1`; in particular
for line lengths `[5, 0, 10]` the linear offset of line 3, column 2 is
`9`. -/
theorem C9_linear_index_formula :
    (∀ (ll : List Nat) (lineno col : Nat),
      linear_index ll lineno col =
        ((ll.take (lineno - 1)).sum : Int) + ((lineno : Int) - 2) +
          ((col : Int) + 1)) ∧
    linear_index [5, 0, 10] 3 2 = 9 := by
  constructor
  · intro ll lineno col
    unfold linear_index
    ring
  · decide

/-- C6 (amended): on a fragment whose position-sample set is empty the
resolver raises `IndexError` by indexing `sorted(indexer.collect(tree))[0]`
on the empty list — a fail-fast failure, but not a distinguished
`MalformedQuery` signal (no such signal exists in the code). -/
theorem C6_empty_samples_raise_indexError {M : Type} (env : Env M)
    (t : Fragment) (src : List Char) (indexes : List Int) (ll : List Nat)
    (h : t.samples = []) :
    exact_src_imp env t src indexes ll = Except.error PErr.indexError :=
  exact_src_imp_empty env t src indexes ll h

/-- C6 counterexample: on an empty sample set the resolver's outcome is the
`IndexError` from indexing into the empty sample sequence, not the
`MalformedQuery` signal the claim requires. -/
theorem C6_counterexample :
    exact_src_imp envC treeD srcC idxsC llC = Except.error PErr.indexError ∧
    exact_src_imp envC treeD srcC idxsC llC ≠
      Except.error PErr.malformedQuery := by
  decide

/-- C6 witness: the amended theorem applied to the concrete empty-sample
fragment of scenario D. -/
theorem C6_witness :
    exact_src_imp envC treeD srcC idxsC llC = Except.error PErr.indexError :=
  C6_empty_samples_raise_indexError envC treeD srcC idxsC llC (by decide)

/-- C5 (amended): for an `if`-kind fragment whose candidate text does not
literally begin with `"if "`, continuation-line indentation stripping
removes, after each newline, a number of spaces equal to the NODE'S OWN
column offset minus the fixed constant 5 (`tree.col_offset - 5`); the code
never reads a parent node's column offset. -/
theorem C5_strip_uses_own_col (t : Fragment) (cand : List Char)
    (hk : t.kind = Kind.ifStmt)
    (hp : List.isPrefixOf "if ".toList cand = false) :
    processCandidate t cand =
      pyReplace cand ('\n' :: spaceRun ((t.col_offset : Int) - 5).toNat)
        ['\n'] := by
  unfold processCandidate
  simp only [hk]
  simp only [applyTransform]
  simp only [hp]
  simp [isStmtKind]

/-- C5 counterexample: two misdetected-`elif` fragments under the same
parent (column `parentColE`) that differ only in the node's own recorded
column are dedented differently, and neither is dedented by
`parentColE - 5` spaces as the claim states — the number of spaces removed
tracks the node's own column offset, not the parent's. -/
theorem C5_counterexample :
    processCandidate tE1 candE = "x:\ny".toList ∧
    processCandidate tE2 candE = "x:\n    y".toList ∧
    claimElifStrip parentColE candE = candE ∧
    processCandidate tE1 candE ≠ claimElifStrip parentColE candE ∧
    processCandidate tE2 candE ≠ claimElifStrip parentColE candE ∧
    processCandidate tE1 candE ≠ processCandidate tE2 candE := by
  decide

/-- C5 witness: the amended theorem applied to the concrete fragment
`tE1` (own column 11) and candidate `candE`. -/
theorem C5_witness :
    processCandidate tE1 candE =
      pyReplace candE ('\n' :: spaceRun ((tE1.col_offset : Int) - 5).toNat)
        ['\n'] :=
  C5_strip_uses_own_col tE1 candE rfl (by decide)

/-- C8: the offset table — sample positions mapped to linear offsets,
sorted, deduplicated, with the source length appended as terminal
sentinel — is strictly increasing, and its final element is the source
length, provided every sample offset lies below the source length (sample
positions point inside the source; out-of-bounds offsets are the caller
contract violation of §7). -/
theorem C8_offset_table_strictly_increasing (ll : List Nat)
    (samples : List (Nat × Nat)) (srcLen : Nat)
    (hb : ∀ p ∈ samples, linear_index ll p.1 p.2 < (srcLen : Int)) :
    List.Sorted (· < ·) (offset_table ll samples srcLen) ∧
    (offset_table ll samples srcLen).getLast? = some (srcLen : Int) := by
  constructor
  · unfold offset_table build_offset_table
    rw [List.Sorted, List.pairwise_append]
    refine ⟨sortedDistinct_sorted _, List.pairwise_singleton _ _, ?_⟩
    intro a ha b hb'
    rcases List.mem_singleton.mp hb'
    have ha' := (sortedDistinct_mem _ a).mp ha
    rcases List.mem_map.mp ha' with ⟨p, hp, hpa⟩
    rw [← hpa]
    exact hb p hp
  · exact getLast?_append_singleton _ _

/-- C8 witness: the theorem applied to a concrete sample set (with a
duplicate position) over a source of length 8. -/
theorem C8_witness :
    List.Sorted (· < ·) (offset_table [3] [(1, 0), (2, 0), (1, 0)] 8) ∧
    (offset_table [3] [(1, 0), (2, 0), (1, 0)] 8).getLast? =
      some ((8 : Nat) : Int) :=
  C8_offset_table_strictly_increasing [3] [(1, 0), (2, 0), (1, 0)] 8
    (by decide)

/-- C7: if every end offset in the scanned range (`last_child_index` up to
`first_successor_index`, inclusive) fails the round-trip check benignly
(either a `SyntaxError` on reparse or a mismatching unparse), then: for an
`ast.If` fragment the resolver returns the last attempted candidate text
prefixed with the literal `"elif "` marker; for any other fragment kind it
raises `ExactSrcException`. -/
theorem C7_exhausted_scan_outcome {M : Type} (env : Env M) (t : Fragment)
    (src : List Char) (indexes : List Int) (ll : List Nat) (pos : Nat)
    (hne : t.samples ≠ [])
    (hidx : pyIndex indexes (lastIndex t ll) = some pos)
    (hle : lastIndex t ll ≤ succIndex t ll indexes)
    (hfail : ∀ e : Int, lastIndex t ll ≤ e → e ≤ succIndex t ll indexes →
      benignAt env t src (startIndex t ll) e) :
    (t.kind = Kind.ifStmt →
      exact_src_imp env t src indexes ll =
        Except.ok (elifMarker ++
          candidateAt t src (startIndex t ll) (succIndex t ll indexes))) ∧
    (t.kind ≠ Kind.ifStmt →
      exact_src_imp env t src indexes ll = Except.error PErr.exactSrc) := by
  have hrw := exact_src_imp_eq_scan env t src indexes ll pos hne hidx
  set last := lastIndex t ll with hlast
  set succ := succIndex t ll indexes with hsucc
  set n := (succ + 1 - last).toNat with hn
  have hnpos : 0 < n := by omega
  have hball : ∀ k : Nat, k < n →
      benignAt env t src (startIndex t ll) (last + k) := by
    intro k hk
    exact hfail (last + k) (by omega) (by omega)
  constructor
  · intro hkind
    rw [hrw, scan_benign_if hkind n last none hnpos hball]
    congr 3
    omega
  · intro hkind
    rw [hrw, scan_benign_nonif hkind n last none hball]

/-- C7 witness: the scenario-B `ast.If` fragment, on which every candidate
fails to reparse, yields the `"elif "`-prefixed fallback. -/
theorem C7_witness :
    exact_src_imp envB treeB srcB idxsB llB =
      Except.ok (elifMarker ++
        candidateAt treeB srcB (startIndex treeB llB)
          (succIndex treeB llB idxsB)) := by
  refine (C7_exhausted_scan_outcome envB treeB srcB idxsB llB 0
    (by decide) (by decide) (by decide) ?_).1 rfl
  intro e he1 he2
  have h1 : lastIndex treeB llB = 0 := by decide
  have h2 : succIndex treeB llB idxsB = 4 := by decide
  rw [h1] at he1
  rw [h2] at he2
  interval_cases e <;> exact Or.inl (by decide)

/-- C10: during candidate validation only `SyntaxError` is caught and
treated as "try the next end offset"; if the attempt at some in-range
offset raises any other exception (all earlier offsets having failed
benignly), that exception propagates out of the resolver unchanged —
it is not swallowed and not converted into `ExactSrcException`. -/
theorem C10_nonsyntax_error_propagates {M : Type} (env : Env M)
    (t : Fragment) (src : List Char) (indexes : List Int) (ll : List Nat)
    (pos : Nat) (e₀ : Int) (err : PErr)
    (hne : t.samples ≠ [])
    (hidx : pyIndex indexes (lastIndex t ll) = some pos)
    (h1 : lastIndex t ll ≤ e₀) (h2 : e₀ ≤ succIndex t ll indexes)
    (hpre : ∀ e : Int, lastIndex t ll ≤ e → e < e₀ →
      benignAt env t src (startIndex t ll) e)
    (herr : attempt env t (candidateAt t src (startIndex t ll) e₀) =
      Except.error err)
    (hsyn : err ≠ PErr.syntaxError) :
    exact_src_imp env t src indexes ll = Except.error err := by
  rw [exact_src_imp_eq_scan env t src indexes ll pos hne hidx]
  set last := lastIndex t ll with hlast
  set succ := succIndex t ll indexes with hsucc
  refine scan_error_surface hsyn (e₀ - last).toNat _ last none (by omega)
    ?_ ?_
  · intro k hk
    exact hpre (last + k) (by omega) (by omega)
  · have harith : last + (((e₀ - last).toNat : Nat) : Int) = e₀ := by omega
    rw [harith]
    exact herr

/-- C10 witness: in scenario C the very first candidate parses but
unparsing the original fragment raises `AttributeError`, which escapes the
resolver instead of becoming `ExactSrcException`. -/
theorem C10_witness :
    exact_src_imp envC treeC srcC idxsC llC =
      Except.error PErr.attributeError := by
  refine C10_nonsyntax_error_propagates envC treeC srcC idxsC llC 0 0
    PErr.attributeError (by decide) (by decide) (by decide) (by decide)
    ?_ (by decide) (by decide)
  intro e he1 he2
  have h1 : lastIndex treeC llC = 0 := by decide
  rw [h1] at he1
  exact absurd he2 (by omega)

/-- C1 (amended): for every fragment on which the resolver succeeds, either
reparsing the returned text with the expression parenthesization applied
(the returned text already carries the comprehension delimiters and the
dedent) yields a tree whose canonical unparsed form, trimmed of surrounding
whitespace, equals the trimmed canonical unparsed form of the original
fragment — this covers every success via the round-trip-checked path,
`ast.If` fragments included — or the fragment is an `if`-kind node and the
returned value is the `"elif "`-prefixed fallback candidate, which is not
round-trip validated. -/
theorem C1_roundtrip_on_success {M : Type} (env : Env M) (t : Fragment)
    (src : List Char) (indexes : List Int) (ll : List Nat) (r : List Char)
    (hok : exact_src_imp env t src indexes ll = Except.ok r) :
    (∃ m u1 u2, env.parse (exprWrap t.kind r) = Except.ok m ∧
      env.unparseM m = Except.ok u1 ∧ env.unparseT t = Except.ok u2 ∧
      pyStrip u1 = pyStrip u2) ∨
    (t.kind = Kind.ifStmt ∧
      ∃ e : Int, r = elifMarker ++ candidateAt t src (startIndex t ll) e) := by
  obtain ⟨hne, pos, hidx⟩ := exact_src_imp_ok_shape env t src indexes ll r hok
  rw [exact_src_imp_eq_scan env t src indexes ll pos hne hidx] at hok
  rcases scan_ok_cases env t src (startIndex t ll) _ (lastIndex t ll) none r
      hok with ⟨k, _, hatt, hrr, _⟩ | ⟨hkind, _, hend⟩
  · rw [← hrr] at hatt
    exact Or.inl (attempt_ok_true hatt)
  · rcases hend with ⟨_, hrr⟩ | ⟨_, p, hp, _⟩
    · exact Or.inr ⟨hkind, _, hrr⟩
    · exact absurd hp (by simp)

/-- C1 counterexample: in scenario B the resolver succeeds (returning the
`"elif "`-prefixed fallback text), yet reparsing the returned text with the
wrapping rules for its kind (a statement receives no wrap) raises
`SyntaxError` — no tree is produced at all, so the round-trip equality the
claim asserts for every success fails. -/
theorem C1_counterexample :
    exact_src_imp envB treeB srcB idxsB llB =
      Except.ok ("elif b: 2".toList) ∧
    envB.parse (exprWrap treeB.kind ("elif b: 2".toList)) =
      Except.error PErr.syntaxError := by
  decide

/-- C1 witness: scenario A, where the resolver succeeds via the checked
path and the returned comprehension text round-trips. -/
theorem C1_witness :
    (∃ m u1 u2,
      envA.parse (exprWrap treeA.kind ("[x for x in y]".toList)) =
        Except.ok m ∧
      envA.unparseM m = Except.ok u1 ∧ envA.unparseT treeA = Except.ok u2 ∧
      pyStrip u1 = pyStrip u2) ∨
    (treeA.kind = Kind.ifStmt ∧
      ∃ e : Int, ("[x for x in y]".toList) =
        elifMarker ++ candidateAt treeA srcA (startIndex treeA llA) e) :=
  C1_roundtrip_on_success envA treeA srcA idxsA llA ("[x for x in y]".toList)
    (by decide)

/-- C2 (amended): every value the resolver returns is obtained from a
contiguous substring `src[start:e]` (for some end offset `e` in the scanned
range) by applying the kind-specific post-processing — the comprehension
delimiter wrap and the indentation stripping — and, on the `elif` fallback
path, prefixing the `"elif "` marker; it is a literal contiguous substring
of the source only when that post-processing is the identity. -/
theorem C2_result_is_processed_slice {M : Type} (env : Env M) (t : Fragment)
    (src : List Char) (indexes : List Int) (ll : List Nat) (r : List Char)
    (hok : exact_src_imp env t src indexes ll = Except.ok r) :
    ∃ e : Int, lastIndex t ll ≤ e ∧ e ≤ succIndex t ll indexes ∧
      (r = processCandidate t (pySlice src (startIndex t ll) e) ∨
       (t.kind = Kind.ifStmt ∧
        r = elifMarker ++
          processCandidate t (pySlice src (startIndex t ll) e))) := by
  obtain ⟨hne, pos, hidx⟩ := exact_src_imp_ok_shape env t src indexes ll r hok
  rw [exact_src_imp_eq_scan env t src indexes ll pos hne hidx] at hok
  set last := lastIndex t ll with hlast
  set succ := succIndex t ll indexes with hsucc
  set n := (succ + 1 - last).toNat with hn
  rcases scan_ok_cases env t src (startIndex t ll) n last none r hok with
    ⟨k, hk, _, hrr, _⟩ | ⟨hkind, _, hend⟩
  · simp only [candidateAt] at hrr
    exact ⟨last + k, by omega, by omega, Or.inl hrr⟩
  · rcases hend with ⟨hnpos, hrr⟩ | ⟨_, p, hp, _⟩
    · simp only [candidateAt] at hrr
      exact ⟨last + ((n : Int) - 1), by omega, by omega,
        Or.inr ⟨hkind, hrr⟩⟩
    · exact absurd hp (by simp)

/-- C2 counterexample: in scenario A the resolver succeeds and the returned
text is not an infix (hence not a contiguous slice `src[i:j]`) of the
source: the comprehension delimiters the resolver added do not occur in the
source at all. -/
theorem C2_counterexample :
    exact_src_imp envA treeA srcA idxsA llA =
      Except.ok ("[x for x in y]".toList) ∧
    ¬ List.IsInfix ("[x for x in y]".toList) srcA := by
  decide

/-- C2 witness: the shape theorem applied to scenario A. -/
theorem C2_witness :
    ∃ e : Int, lastIndex treeA llA ≤ e ∧ e ≤ succIndex treeA llA idxsA ∧
      (("[x for x in y]".toList) =
         processCandidate treeA (pySlice srcA (startIndex treeA llA) e) ∨
       (treeA.kind = Kind.ifStmt ∧
        ("[x for x in y]".toList) = elifMarker ++
          processCandidate treeA (pySlice srcA (startIndex treeA llA) e))) :=
  C2_result_is_processed_slice envA treeA srcA idxsA llA
    ("[x for x in y]".toList) (by decide)

/-- C3: candidate end offsets are scanned in increasing order from the
fragment's last sample offset up to the successor bound, and whenever the
resolver returns a result while some in-range offset passes the round-trip
check, the result is the candidate of the smallest passing end offset: every
smaller in-range offset fails the check. -/
theorem C3_minimal_end_offset {M : Type} (env : Env M) (t : Fragment)
    (src : List Char) (indexes : List Int) (ll : List Nat) (r : List Char)
    (e : Int)
    (hok : exact_src_imp env t src indexes ll = Except.ok r)
    (h1 : lastIndex t ll ≤ e) (h2 : e ≤ succIndex t ll indexes)
    (hp : attempt env t (candidateAt t src (startIndex t ll) e) =
      Except.ok true) :
    ∃ e₀ : Int, lastIndex t ll ≤ e₀ ∧ e₀ ≤ e ∧
      attempt env t (candidateAt t src (startIndex t ll) e₀) =
        Except.ok true ∧
      r = candidateAt t src (startIndex t ll) e₀ ∧
      ∀ eo : Int, lastIndex t ll ≤ eo → eo < e₀ →
        attempt env t (candidateAt t src (startIndex t ll) eo) ≠
          Except.ok true := by
  obtain ⟨hne, pos, hidx⟩ := exact_src_imp_ok_shape env t src indexes ll r hok
  rw [exact_src_imp_eq_scan env t src indexes ll pos hne hidx] at hok
  set last := lastIndex t ll with hlast
  set succ := succIndex t ll indexes with hsucc
  set n := (succ + 1 - last).toNat with hn
  rcases scan_ok_cases env t src (startIndex t ll) n last none r hok with
    ⟨k, hk, hatt, hrr, hprefix⟩ | ⟨_, hall, _⟩
  · refine ⟨last + k, by omega, ?_, hatt, hrr, ?_⟩
    · by_contra hcon
      push_neg at hcon
      have hj : (e - last).toNat < k := by omega
      have hb := hprefix (e - last).toNat hj
      have harith : last + (((e - last).toNat : Nat) : Int) = e := by omega
      rw [harith] at hb
      exact benignAt_ne_okTrue hb hp
    · intro eo ho1 ho2
      have hj : (eo - last).toNat < k := by omega
      have hb := hprefix (eo - last).toNat hj
      have harith : last + (((eo - last).toNat : Nat) : Int) = eo := by omega
      rw [harith] at hb
      exact benignAt_ne_okTrue hb
  · have hj : (e - last).toNat < n := by omega
    have hb := hall (e - last).toNat hj
    have harith : last + (((e - last).toNat : Nat) : Int) = e := by omega
    rw [harith] at hb
    exact absurd hp (benignAt_ne_okTrue hb)

/-- C3 witness: in scenario A the only passing end offset is 12, and the
returned result is its candidate, all smaller offsets failing. -/
theorem C3_witness :
    ∃ e₀ : Int, lastIndex treeA llA ≤ e₀ ∧ e₀ ≤ 12 ∧
      attempt envA treeA (candidateAt treeA srcA (startIndex treeA llA) e₀) =
        Except.ok true ∧
      ("[x for x in y]".toList) =
        candidateAt treeA srcA (startIndex treeA llA) e₀ ∧
      ∀ eo : Int, lastIndex treeA llA ≤ eo → eo < e₀ →
        attempt envA treeA
            (candidateAt treeA srcA (startIndex treeA llA) eo) ≠
          Except.ok true :=
  C3_minimal_end_offset envA treeA srcA idxsA llA ("[x for x in y]".toList)
    12 (by decide) (by decide) (by decide) (by decide)

/-- C4 (amended): when a comprehension-kind candidate passes the round-trip
comparison, the resolver returns the candidate text WITH the comprehension
delimiter pair included (the `_transforms` wrap is applied to the slice
before the check and the wrapped text is what is returned); only the
parentheses added for expression-kind parse validation are absent from the
returned text. -/
theorem C4_comprehension_delimiters_in_result {M : Type} (env : Env M)
    (t : Fragment) (src : List Char) (indexes : List Int) (ll : List Nat)
    (r : List Char)
    (hk : t.kind = Kind.genExp ∨ t.kind = Kind.listComp)
    (hok : exact_src_imp env t src indexes ll = Except.ok r) :
    ∃ e : Int, lastIndex t ll ≤ e ∧ e ≤ succIndex t ll indexes ∧
      r = applyTransform t.kind (pySlice src (startIndex t ll) e) := by
  have hkif : t.kind ≠ Kind.ifStmt := by
    rcases hk with h | h <;> simp [h]
  obtain ⟨hne, pos, hidx⟩ := exact_src_imp_ok_shape env t src indexes ll r hok
  rw [exact_src_imp_eq_scan env t src indexes ll pos hne hidx] at hok
  set last := lastIndex t ll with hlast
  set succ := succIndex t ll indexes with hsucc
  set n := (succ + 1 - last).toNat with hn
  rcases scan_ok_cases env t src (startIndex t ll) n last none r hok with
    ⟨k, hkn, _, hrr, _⟩ | ⟨hkind, _, _⟩
  · refine ⟨last + k, by omega, by omega, ?_⟩
    rw [hrr]
    simp only [candidateAt]
    exact processCandidate_comprehension t _ hk
  · exact absurd hkind hkif

/-- C4 counterexample: in scenario A the returned text contains the
delimiter character `'['` that the wrapper added, although `'['` occurs
nowhere in the source — the comprehension-delimiter wrapper is present in
the returned text, not absent as the claim states. -/
theorem C4_counterexample :
    exact_src_imp envA treeA srcA idxsA llA =
      Except.ok ("[x for x in y]".toList) ∧
    '[' ∈ ("[x for x in y]".toList) ∧ '[' ∉ srcA := by
  decide

/-- C4 witness: the amended theorem applied to scenario A. -/
theorem C4_witness :
    ∃ e : Int, lastIndex treeA llA ≤ e ∧ e ≤ succIndex treeA llA idxsA ∧
      ("[x for x in y]".toList) =
        applyTransform treeA.kind (pySlice srcA (startIndex treeA llA) e) :=
  C4_comprehension_delimiters_in_result envA treeA srcA idxsA llA
    ("[x for x in y]".toList) (Or.inr rfl) (by decide)

end MacropyES
